import Mathlib

/-!
Secure channel of `src/connection/secure.c`.

A shallow embedding of the handshake (`Secure_Connect`, `Secure_Accept`) and of
the framed messenger (`Secure_Send`, `Secure_Recv`).

* Bytes are natural numbers, buffers are lists of bytes.
* The socket layer (`Net_Send`, `Net_Recv`) and the libsodium primitives are
  collaborators of the file; they are modelled as explicit state or taken as
  parameters.
* Every function returns, next to its C return value, the list of observable
  events it performed (allocations, releases, socket calls, cipher calls), in
  program order.
-/

namespace Secure

/-- Buffers are lists of bytes, a byte being a natural number. -/
abbrev Bytes := List Nat

/-- Constant `crypto_box_MACBYTES` of libsodium. -/
def crypto_box_MACBYTES : Nat := 16

/-- Constant `crypto_box_NONCEBYTES` of libsodium. -/
def crypto_box_NONCEBYTES : Nat := 24

/-- Constant `crypto_box_PUBLICKEYBYTES` of libsodium. -/
def crypto_box_PUBLICKEYBYTES : Nat := 32

/-- Modelled from the spec: `sizeof(Secure_MsgSize)`, the type is declared in the
absent header `secure.h`; the wire format gives the size field 4 bytes and the
code fills it with `htonl`. -/
def sizeof_Secure_MsgSize : Nat := 4

/-- The value `(size_t)-1` returned by `Secure_Recv` on failure (64-bit `size_t`). -/
def SIZE_MAX : Nat := 2 ^ 64 - 1

/-- The bytes of `size.bytes` after `size.value = htonl(len)`: the big-endian
encoding of `len` truncated to 32 bits. -/
def htonl (len : Nat) : Bytes :=
  [len / 2 ^ 24 % 256, len / 2 ^ 16 % 256, len / 2 ^ 8 % 256, len % 256]

/-- The value `ntohl(size.value)` when `size.bytes` holds `b`: the big-endian
reading of the first four bytes. -/
def ntohl (b : Bytes) : Nat :=
  (b.getD 0 0 % 256) * 2 ^ 24 + (b.getD 1 0 % 256) * 2 ^ 16
    + (b.getD 2 0 % 256) * 2 ^ 8 + b.getD 3 0 % 256

/-- The statement `nonce[0] ^= 1`. -/
def flipNonce : Bytes → Bytes
  | [] => []
  | b :: rest => (b ^^^ 1) :: rest

/-- Parameters of the file: the constant `SECURE_MAX_MSGSIZE` of the absent
header, and the libsodium primitives. A primitive returns `none` where the C
function returns a non-zero status. Argument order: message (or ciphertext),
nonce, key; for the key agreement: peer public key, own private key. -/
structure Secure_Env where
  SECURE_MAX_MSGSIZE : Nat
  crypto_box_easy_afternm : Bytes → Bytes → Bytes → Option Bytes
  crypto_box_open_easy_afternm : Bytes → Bytes → Bytes → Option Bytes
  Secure_GenSharedKey : Bytes → Bytes → Option Bytes

/-- Modelled from the spec: the state of one endpoint of the byte stream behind
`Net_Send` and `Net_Recv` (the socket layer is absent from the sources).
`wire` holds the bytes transferred to the peer so far, `script` tells for each
coming `Net_Send` call what the transport does (`none`: error, `some c`: at most
`c` bytes are transferred; once the script is used up every write is complete),
`inbox` holds the bytes not yet read. -/
structure Net_Sock where
  wire : Bytes
  script : List (Option Nat)
  inbox : Bytes
deriving DecidableEq, Repr

/-- Modelled from the spec: `Net_Send(sock, buf, n)` (absent from the sources),
the count-or-error write of the transport adapter. Returns the number of bytes
transferred, or -1. -/
def Net_Send (s : Net_Sock) (buf : Bytes) (n : Nat) : Int × Net_Sock :=
  match s.script with
  | [] => ((n : Int), { s with wire := s.wire ++ buf.take n })
  | none :: rest => (-1, { s with script := rest })
  | some c :: rest =>
    ((min n c : Nat), { s with wire := s.wire ++ buf.take (min n c), script := rest })

/-- Modelled from the spec: `Net_Recv(sock, buf, n)` (absent from the sources),
the count-or-error read of the transport adapter. Returns the number of bytes
read, the bytes, and the socket; the count is short when the stream holds fewer
than `n` bytes. -/
def Net_Recv (s : Net_Sock) (n : Nat) : Nat × Bytes × Net_Sock :=
  ((s.inbox.take n).length, s.inbox.take n, { s with inbox := s.inbox.drop n })

/-- The struct `Secure_Session`: a socket and the shared key. -/
structure Secure_Session where
  sock : Net_Sock
  key : Bytes
deriving DecidableEq, Repr

/-- The heap blocks the functions allocate. -/
inductive Buf where
  | cyphertext
  | cyphersize
  | nonce
  | data
  | peer
  | session
  | key
deriving DecidableEq, Repr

/-- Observable events, logged in program order. -/
inductive Event where
  | malloc (b : Buf)
  | free (b : Buf)
  | seal (msg nonce : Bytes)
  | unseal (cipher nonce : Bytes)
  | netSend (buf : Bytes) (n : Nat)
  | netRecv (n : Nat)
  | connectSocket (ok : Bool)
  | acceptSocket (ok : Bool)
  | genSharedKey (peer priv : Bytes)
  | netClose
  | freeSession
deriving DecidableEq, Repr

/-- Result of `Secure_Send`: the `int` returned, the socket afterwards, the events. -/
structure Send_Result where
  ret : Int
  sock : Net_Sock
  log : List Event
deriving DecidableEq, Repr

/-- The three releases that end every path of `Secure_Send`. -/
def sendFrees : List Event :=
  [Event.free Buf.cyphertext, Event.free Buf.cyphersize, Event.free Buf.nonce]

/-- The function `Secure_Send(session, data, len)` with `len = data.length`;
`gen` is the value `Secure_GenNonce` writes into the nonce. -/
def Secure_Send (env : Secure_Env) (session : Secure_Session) (gen : Bytes)
    (data : Bytes) : Send_Result :=
  let len := data.length
  let log0 : List Event :=
    [Event.malloc Buf.cyphertext, Event.malloc Buf.cyphersize, Event.malloc Buf.nonce]
  let nonce := gen
  if len > env.SECURE_MAX_MSGSIZE then
    ⟨-1, session.sock, log0 ++ sendFrees⟩
  else
    let size := htonl len
    let log1 := log0 ++ [Event.seal size nonce]
    match env.crypto_box_easy_afternm size nonce session.key with
    | none => ⟨-1, session.sock, log1 ++ sendFrees⟩
    | some cyphersize =>
      let nonce1 := flipNonce nonce
      let log2 := log1 ++ [Event.seal data nonce1]
      match env.crypto_box_easy_afternm data nonce1 session.key with
      | none => ⟨-1, session.sock, log2 ++ sendFrees⟩
      | some cyphertext =>
        let nonce2 := flipNonce nonce1
        let r1 := Net_Send session.sock nonce2 crypto_box_NONCEBYTES
        let log3 := log2 ++ [Event.netSend nonce2 crypto_box_NONCEBYTES]
        if r1.1 ≠ (crypto_box_NONCEBYTES : Int) then
          ⟨-1, r1.2, log3 ++ sendFrees⟩
        else
          let r2 := Net_Send r1.2 cyphersize (sizeof_Secure_MsgSize + crypto_box_MACBYTES)
          let log4 := log3 ++
            [Event.netSend cyphersize (sizeof_Secure_MsgSize + crypto_box_MACBYTES)]
          if r2.1 ≠ ((sizeof_Secure_MsgSize + crypto_box_MACBYTES : Nat) : Int) then
            ⟨-1, r2.2, log4 ++ sendFrees⟩
          else
            let r3 := Net_Send r2.2 cyphertext (len + crypto_box_MACBYTES)
            let log5 := log4 ++ [Event.netSend cyphertext (len + crypto_box_MACBYTES)]
            ⟨r3.1, r3.2, log5 ++ sendFrees⟩

/-- Result of `Secure_Recv`: the `size_t` returned, the content of `*data`
(`none`: never written, `some none`: the null pointer, `some (some b)`: a buffer
holding `b`), the socket afterwards, the events. -/
structure Recv_Result where
  ret : Nat
  data : Option (Option Bytes)
  sock : Net_Sock
  log : List Event
deriving DecidableEq, Repr

/-- The function `Secure_Recv(session, data)`; `mallocData` tells whether
`malloc(out)` for `*data` returns a buffer. -/
def Secure_Recv (env : Secure_Env) (session : Secure_Session) (mallocData : Bool) :
    Recv_Result :=
  let log0 : List Event := [Event.malloc Buf.cyphersize, Event.malloc Buf.nonce]
  let r1 := Net_Recv session.sock crypto_box_NONCEBYTES
  let nonce := r1.2.1
  let log1 := log0 ++ [Event.netRecv crypto_box_NONCEBYTES]
  if r1.1 ≠ crypto_box_NONCEBYTES then
    ⟨SIZE_MAX, none, r1.2.2, log1 ++ [Event.free Buf.cyphersize, Event.free Buf.nonce]⟩
  else
    let r2 := Net_Recv r1.2.2 (sizeof_Secure_MsgSize + crypto_box_MACBYTES)
    let cyphersize := r2.2.1
    let log2 := log1 ++ [Event.netRecv (sizeof_Secure_MsgSize + crypto_box_MACBYTES)]
    if r2.1 ≠ sizeof_Secure_MsgSize + crypto_box_MACBYTES then
      ⟨SIZE_MAX, none, r2.2.2, log2 ++ [Event.free Buf.cyphersize, Event.free Buf.nonce]⟩
    else
      let log3 := log2 ++ [Event.unseal cyphersize nonce]
      match env.crypto_box_open_easy_afternm cyphersize nonce session.key with
      | none =>
        ⟨SIZE_MAX, none, r2.2.2, log3 ++ [Event.free Buf.cyphersize, Event.free Buf.nonce]⟩
      | some size =>
        let log4 := log3 ++ [Event.free Buf.cyphersize]
        let out := ntohl size
        if out > env.SECURE_MAX_MSGSIZE then
          ⟨SIZE_MAX, none, r2.2.2, log4 ++ [Event.free Buf.nonce]⟩
        else
          let r3 := Net_Recv r2.2.2 (out + crypto_box_MACBYTES)
          let cyphertext := r3.2.1
          let log5 := log4 ++
            [Event.malloc Buf.cyphertext, Event.netRecv (out + crypto_box_MACBYTES)]
          if r3.1 ≠ out + crypto_box_MACBYTES then
            ⟨SIZE_MAX, none, r3.2.2, log5 ++ [Event.free Buf.cyphertext, Event.free Buf.nonce]⟩
          else
            let nonce1 := flipNonce nonce
            if mallocData = false then
              ⟨SIZE_MAX, some none, r3.2.2,
                log5 ++ [Event.free Buf.cyphertext, Event.free Buf.nonce]⟩
            else
              let log6 := log5 ++ [Event.malloc Buf.data, Event.unseal cyphertext nonce1]
              match env.crypto_box_open_easy_afternm cyphertext nonce1 session.key with
              | none =>
                ⟨SIZE_MAX, some none, r3.2.2,
                  log6 ++ [Event.free Buf.cyphertext, Event.free Buf.nonce, Event.free Buf.data]⟩
              | some plain =>
                ⟨out, some (some plain), r3.2.2,
                  log6 ++ [Event.free Buf.cyphertext, Event.free Buf.nonce]⟩

/-- Modelled from the spec: what the helpers of the absent header do during one
handshake. `newSession`: `Secure_NewSession` returns a session (not the null
pointer); `socketOk`: `Secure_ConnectSocket` or `Secure_AcceptSocket` succeeds;
`sock`: the state of `out->sock` after that call. -/
structure Handshake_World where
  newSession : Bool
  socketOk : Bool
  sock : Net_Sock
deriving DecidableEq, Repr

/-- Result of a handshake: the pointer returned (`some none`: the null pointer,
`some (some s)`: a session; `none`: the call dereferences the null pointer and
has no defined result), and the events. -/
structure Handshake_Result where
  ret : Option (Option Secure_Session)
  log : List Event
deriving DecidableEq, Repr

/-- The function `Secure_Close(session)`: `Net_Close` then `Secure_FreeSession`. -/
def Secure_Close : List Event := [Event.netClose, Event.freeSession]

/-- Modelled from the spec: `Secure_SendPublicKey(out, pub)` (absent from the
sources) sends the public key in the clear; the first component is true when
the C function returns non-zero, that is on a short write. -/
def Secure_SendPublicKey (sock : Net_Sock) (pub : Bytes) : Bool × Net_Sock :=
  let r := Net_Send sock pub crypto_box_PUBLICKEYBYTES
  (decide (r.1 ≠ (crypto_box_PUBLICKEYBYTES : Int)), r.2)

/-- Modelled from the spec: `Secure_RecvPublicKey(out, peer)` (absent from the
sources) reads exactly one public key into `peer`; the first component is true
when the C function returns non-zero, that is on a short read. -/
def Secure_RecvPublicKey (sock : Net_Sock) : Bool × Bytes × Net_Sock :=
  let r := Net_Recv sock crypto_box_PUBLICKEYBYTES
  (decide (r.1 ≠ crypto_box_PUBLICKEYBYTES), r.2.1, r.2.2)

/-- The function `Secure_Connect(peer, pub, priv, addr, port)`. -/
def Secure_Connect (env : Secure_Env) (w : Handshake_World) (peer pub priv : Bytes) :
    Handshake_Result :=
  if w.newSession = false then
    ⟨some none, []⟩
  else
    let log0 : List Event := [Event.malloc Buf.session, Event.connectSocket w.socketOk]
    if w.socketOk = false then
      ⟨some none, log0 ++ [Event.free Buf.session]⟩
    else
      let log1 := log0 ++ [Event.malloc Buf.key, Event.genSharedKey peer priv]
      match env.Secure_GenSharedKey peer priv with
      | none => ⟨some none, log1 ++ Secure_Close⟩
      | some key =>
        let r := Secure_SendPublicKey w.sock pub
        let log2 := log1 ++ [Event.netSend pub crypto_box_PUBLICKEYBYTES]
        if r.1 then
          ⟨some none, log2 ++ Secure_Close⟩
        else
          ⟨some (some ⟨r.2, key⟩), log2⟩

/-- The function `Secure_Accept(server, pub, priv)`. The result of
`Secure_NewSession` is not tested and the status of `Secure_AcceptSocket` is
discarded. With a null session every continuation dereferences it
(`out->key` at line 61, or `session->sock` in `Secure_Close`), so the
result is undefined once `Secure_AcceptSocket` has been called on it. -/
def Secure_Accept (env : Secure_Env) (w : Handshake_World) (_pub priv : Bytes) :
    Handshake_Result :=
  let log0 : List Event :=
    (if w.newSession then [Event.malloc Buf.session] else []) ++
      [Event.malloc Buf.peer, Event.acceptSocket w.socketOk]
  if w.newSession = false then
    ⟨none, log0⟩
  else
    let r := Secure_RecvPublicKey w.sock
    let log1 := log0 ++ [Event.netRecv crypto_box_PUBLICKEYBYTES]
    if r.1 then
      ⟨some none, log1 ++ Secure_Close⟩
    else
      let peer := r.2.1
      let log2 := log1 ++ [Event.malloc Buf.key, Event.genSharedKey peer priv]
      match env.Secure_GenSharedKey peer priv with
      | none => ⟨some none, log2 ++ Secure_Close⟩
      | some key => ⟨some (some ⟨r.2.2, key⟩), log2 ++ [Event.free Buf.peer]⟩

/-- Tells the opening calls among the events. -/
def isUnseal : Event → Bool
  | Event.unseal _ _ => true
  | _ => false

/-- Flip bit `j` of the byte at index `i` of a buffer. -/
def flipBit : Bytes → Nat → Nat → Bytes
  | [], _, _ => []
  | b :: rest, 0, j => (b ^^^ 2 ^ j) :: rest
  | b :: rest, i + 1, j => b :: flipBit rest i j

/-- A toy cipher for the concrete instances: the tag is a checksum of message,
nonce and key, repeated `crypto_box_MACBYTES` times. -/
def toyTag (msg nonce key : Bytes) : Bytes :=
  List.replicate crypto_box_MACBYTES ((msg.sum + nonce.sum + key.sum) % 256)

/-- Toy sealing: the message followed by its tag. -/
def toySeal (msg nonce key : Bytes) : Option Bytes :=
  some (msg ++ toyTag msg nonce key)

/-- Toy opening: succeeds when the tag matches. -/
def toyOpen (cipher nonce key : Bytes) : Option Bytes :=
  let msg := cipher.take (cipher.length - crypto_box_MACBYTES)
  if cipher = msg ++ toyTag msg nonce key then some msg else none

/-- Toy key agreement: the sum of the two keys, byte by byte (symmetric when the
public key equals the private key). -/
def toyAgree (peer priv : Bytes) : Option Bytes :=
  some (List.zipWith (fun a b => (a + b) % 256) peer priv)

/-- A concrete environment with a cap of 8 bytes. -/
def toyEnv : Secure_Env :=
  ⟨8, toySeal, toyOpen, toyAgree⟩

/-- A concrete nonce of `crypto_box_NONCEBYTES` bytes. -/
def toyNonce : Bytes := List.range 24

/-- A concrete key. -/
def toyKey : Bytes := [1, 2, 3]

/-- A fresh socket: nothing written, no scripted failure, the given bytes to read. -/
def freshSock (inbox : Bytes) : Net_Sock := ⟨[], [], inbox⟩

/-- An opening function that accepts exactly the two ciphertexts of the frame
that carries the message `[7]` under `toyNonce`: the sealed length under
`toyNonce` and the sealed message under the flipped nonce. -/
def strictOpen (cipher nonce key : Bytes) : Option Bytes :=
  if nonce = toyNonce ∧ some cipher = toySeal (htonl 1) toyNonce key then some (htonl 1)
  else if nonce = flipNonce toyNonce ∧ some cipher = toySeal [7] (flipNonce toyNonce) key then
    some [7]
  else none

/-- The toy environment with the strict opening function. -/
def strictEnv : Secure_Env :=
  ⟨8, toySeal, strictOpen, toyAgree⟩

/-! ## Auxiliary facts -/

theorem ntohl_htonl (n : Nat) : ntohl (htonl n) = n % 2 ^ 32 := by
  simp only [ntohl, htonl, List.getD_cons_zero, List.getD_cons_succ]
  omega

theorem flipNonce_flipNonce (n : Bytes) : flipNonce (flipNonce n) = n := by
  cases n with
  | nil => rfl
  | cons b rest => simp [flipNonce, Nat.xor_assoc]

theorem flipNonce_length (n : Bytes) : (flipNonce n).length = n.length := by
  cases n <;> simp [flipNonce]

theorem xor_one_ne (b : Nat) : b ^^^ 1 ≠ b := by
  intro h
  have := congrArg (fun x => x ^^^ b) h
  simp [Nat.xor_comm b 1, Nat.xor_assoc] at this

theorem flipNonce_ne (n : Bytes) (h : n ≠ []) : flipNonce n ≠ n := by
  cases n with
  | nil => exact absurd rfl h
  | cons b rest => simp [flipNonce, xor_one_ne]

theorem Net_Send_complete (s : Net_Sock) (buf : Bytes) (n : Nat)
    (h : (Net_Send s buf n).1 = (n : Int)) :
    (Net_Send s buf n).2.wire = s.wire ++ buf.take n ∧
      (Net_Send s buf n).2.inbox = s.inbox := by
  unfold Net_Send at h ⊢
  split
  · simp
  · rename_i rest hs
    simp only [hs] at h
    omega
  · rename_i c rest hs
    simp only [hs] at h
    have : min n c = n := by exact_mod_cast h
    simp [this]

/-- When `Secure_Send` returns the full payload count, both sealings succeeded,
the length was within the cap, and the three buffers went out whole, in order. -/
theorem Secure_Send_complete (env : Secure_Env) (session : Secure_Session)
    (gen data : Bytes)
    (h : (Secure_Send env session gen data).ret
      = ((data.length + crypto_box_MACBYTES : Nat) : Int)) :
    ∃ cs ct,
      env.crypto_box_easy_afternm (htonl data.length) gen session.key = some cs ∧
      env.crypto_box_easy_afternm data (flipNonce gen) session.key = some ct ∧
      data.length ≤ env.SECURE_MAX_MSGSIZE ∧
      (Secure_Send env session gen data).sock.wire
        = session.sock.wire ++ gen.take crypto_box_NONCEBYTES
          ++ cs.take (sizeof_Secure_MsgSize + crypto_box_MACBYTES)
          ++ ct.take (data.length + crypto_box_MACBYTES) ∧
      (Secure_Send env session gen data).log
        = [Event.malloc Buf.cyphertext, Event.malloc Buf.cyphersize, Event.malloc Buf.nonce,
            Event.seal (htonl data.length) gen, Event.seal data (flipNonce gen),
            Event.netSend gen crypto_box_NONCEBYTES,
            Event.netSend cs (sizeof_Secure_MsgSize + crypto_box_MACBYTES),
            Event.netSend ct (data.length + crypto_box_MACBYTES)] ++ sendFrees := by
  unfold Secure_Send at h ⊢
  simp only [flipNonce_flipNonce] at h ⊢
  split at h
  · simp at h; omega
  · rename_i hcap
    simp only [hcap, if_false]
    cases hcs : env.crypto_box_easy_afternm (htonl data.length) gen session.key with
    | none => simp only [hcs] at h; simp at h; omega
    | some cs =>
      simp only [hcs] at h ⊢
      cases hct : env.crypto_box_easy_afternm data (flipNonce gen) session.key with
      | none => simp only [hct] at h; simp at h; omega
      | some ct =>
        simp only [hct] at h ⊢
        split at h
        · simp at h; omega
        · rename_i h1
          simp only [h1, if_false]
          split at h
          · simp at h; omega
          · rename_i h2
            simp only [h2, if_false]
            have h1' := Net_Send_complete _ _ _ (not_not.mp h1)
            have h2' := Net_Send_complete _ _ _ (not_not.mp h2)
            have h3' := Net_Send_complete _ _ _ h
            refine ⟨cs, ct, rfl, rfl, by omega, ?_, ?_⟩
            · rw [h3'.1, h2'.1, h1'.1]
            · simp

/-- The two fixed-size reads of `Secure_Recv` on a stream that starts with a
nonce and an encrypted size field. -/
theorem Net_Recv_header (sock : Net_Sock) (n sc rest : Bytes)
    (hin : sock.inbox = n ++ (sc ++ rest))
    (hn : n.length = crypto_box_NONCEBYTES)
    (hsc : sc.length = sizeof_Secure_MsgSize + crypto_box_MACBYTES) :
    Net_Recv sock crypto_box_NONCEBYTES
        = (crypto_box_NONCEBYTES, n, { sock with inbox := sc ++ rest }) ∧
      Net_Recv { sock with inbox := sc ++ rest } (sizeof_Secure_MsgSize + crypto_box_MACBYTES)
        = (sizeof_Secure_MsgSize + crypto_box_MACBYTES, sc, { sock with inbox := rest }) := by
  unfold Net_Recv
  simp only [hin, List.take_left' hn, List.drop_left' hn, List.take_left' hsc,
    List.drop_left' hsc, hn, hsc, and_self]

/-- A size field that fails to authenticate: error, `*data` never written. -/
theorem Secure_Recv_size_rejected (env : Secure_Env) (session : Secure_Session)
    (mallocData : Bool) (n sc rest : Bytes)
    (hin : session.sock.inbox = n ++ (sc ++ rest))
    (hn : n.length = crypto_box_NONCEBYTES)
    (hsc : sc.length = sizeof_Secure_MsgSize + crypto_box_MACBYTES)
    (hopen : env.crypto_box_open_easy_afternm sc n session.key = none) :
    (Secure_Recv env session mallocData).ret = SIZE_MAX ∧
      (Secure_Recv env session mallocData).data = none := by
  obtain ⟨h1, h2⟩ := Net_Recv_header session.sock n sc rest hin hn hsc
  unfold Secure_Recv
  simp only [h1, h2, hopen, ne_eq, not_true_eq_false, if_false, and_self]

/-- A size field that decrypts to more than the cap: error, `*data` never
written, nothing read past the size field, no payload buffer allocated. -/
theorem Secure_Recv_size_too_large (env : Secure_Env) (session : Secure_Session)
    (mallocData : Bool) (n sc rest size : Bytes)
    (hin : session.sock.inbox = n ++ (sc ++ rest))
    (hn : n.length = crypto_box_NONCEBYTES)
    (hsc : sc.length = sizeof_Secure_MsgSize + crypto_box_MACBYTES)
    (hopen : env.crypto_box_open_easy_afternm sc n session.key = some size)
    (hbig : ntohl size > env.SECURE_MAX_MSGSIZE) :
    Secure_Recv env session mallocData
      = ⟨SIZE_MAX, none, { session.sock with inbox := rest },
          [Event.malloc Buf.cyphersize, Event.malloc Buf.nonce,
            Event.netRecv crypto_box_NONCEBYTES,
            Event.netRecv (sizeof_Secure_MsgSize + crypto_box_MACBYTES),
            Event.unseal sc n, Event.free Buf.cyphersize, Event.free Buf.nonce]⟩ := by
  obtain ⟨h1, h2⟩ := Net_Recv_header session.sock n sc rest hin hn hsc
  unfold Secure_Recv
  simp only [h1, h2, hopen, hbig, ne_eq, not_true_eq_false, if_false, if_true,
    List.cons_append, List.nil_append, List.append_assoc]

/-- A well-formed header followed by a payload of the declared size: the
outcome is decided by the allocation of `*data` and by the opening of the
payload under the flipped nonce. -/
theorem Secure_Recv_payload (env : Secure_Env) (session : Secure_Session)
    (mallocData : Bool) (n sc pc rest size : Bytes)
    (hin : session.sock.inbox = n ++ (sc ++ (pc ++ rest)))
    (hn : n.length = crypto_box_NONCEBYTES)
    (hsc : sc.length = sizeof_Secure_MsgSize + crypto_box_MACBYTES)
    (hopen : env.crypto_box_open_easy_afternm sc n session.key = some size)
    (hcap : ntohl size ≤ env.SECURE_MAX_MSGSIZE)
    (hpc : pc.length = ntohl size + crypto_box_MACBYTES) :
    (Secure_Recv env session mallocData).ret
        = (if mallocData = false then SIZE_MAX
          else match env.crypto_box_open_easy_afternm pc (flipNonce n) session.key with
            | none => SIZE_MAX
            | some _ => ntohl size) ∧
      (Secure_Recv env session mallocData).data
        = (if mallocData = false then some none
          else match env.crypto_box_open_easy_afternm pc (flipNonce n) session.key with
            | none => some none
            | some plain => some (some plain)) ∧
      (Secure_Recv env session mallocData).sock.inbox = rest := by
  obtain ⟨h1, h2⟩ := Net_Recv_header session.sock n sc (pc ++ rest) hin hn hsc
  have h3 : Net_Recv { session.sock with inbox := pc ++ rest } (ntohl size + crypto_box_MACBYTES)
      = (ntohl size + crypto_box_MACBYTES, pc, { session.sock with inbox := rest }) := by
    unfold Net_Recv
    simp only [List.take_left' hpc, List.drop_left' hpc, hpc]
  have hcap' : ¬ ntohl size > env.SECURE_MAX_MSGSIZE := by omega
  unfold Secure_Recv
  simp only [h1, h2, hopen, hcap', h3, ne_eq, not_true_eq_false, if_false]
  cases mallocData with
  | false => simp
  | true =>
    cases env.crypto_box_open_easy_afternm pc (flipNonce n) session.key <;> simp

theorem toySeal_length (m n k c : Bytes) (h : toySeal m n k = some c) :
    c.length = m.length + crypto_box_MACBYTES := by
  simp only [toySeal, Option.some.injEq] at h
  subst h
  simp [toyTag]

theorem xor_pow_ne (b j : Nat) : b ^^^ 2 ^ j ≠ b := by
  intro h
  have h2 := congrArg (fun x => b ^^^ x) h
  simp only [← Nat.xor_assoc, Nat.xor_self, Nat.zero_xor] at h2
  exact absurd h2 (by positivity)

theorem flipBit_length (l : Bytes) (i j : Nat) : (flipBit l i j).length = l.length := by
  induction l generalizing i with
  | nil => simp [flipBit]
  | cons b rest ih =>
    cases i with
    | zero => simp [flipBit]
    | succ i => simp [flipBit, ih]

theorem flipBit_ne (l : Bytes) (i j : Nat) (h : i < l.length) : flipBit l i j ≠ l := by
  induction l generalizing i with
  | nil => simp at h
  | cons b rest ih =>
    cases i with
    | zero => simp [flipBit, xor_pow_ne]
    | succ i =>
      simp only [flipBit, ne_eq, List.cons.injEq, true_and]
      exact ih i (by simpa using h)

theorem flipBit_append_left (l₁ l₂ : Bytes) (i j : Nat) (h : i < l₁.length) :
    flipBit (l₁ ++ l₂) i j = flipBit l₁ i j ++ l₂ := by
  induction l₁ generalizing i with
  | nil => simp at h
  | cons b rest ih =>
    cases i with
    | zero => simp [flipBit]
    | succ i =>
      simp only [List.cons_append, flipBit, List.cons.injEq, true_and]
      exact ih i (by simpa using h)

theorem flipBit_append_right (l₁ l₂ : Bytes) (i j : Nat) (h : l₁.length ≤ i) :
    flipBit (l₁ ++ l₂) i j = l₁ ++ flipBit l₂ (i - l₁.length) j := by
  induction l₁ generalizing i with
  | nil => simp
  | cons b rest ih =>
    cases i with
    | zero => simp at h
    | succ i =>
      simp only [List.cons_append, flipBit, List.length_cons, Nat.add_sub_add_right,
        List.cons.injEq, true_and]
      exact ih i (by simpa using h)

/-- A payload that fails to authenticate after a well-formed header, the
buffer for `*data` having been allocated: error, the buffer is released and
`*data` is the null pointer. -/
theorem Secure_Recv_payload_rejected (env : Secure_Env) (session : Secure_Session)
    (n sc pc rest size : Bytes)
    (hin : session.sock.inbox = n ++ (sc ++ (pc ++ rest)))
    (hn : n.length = crypto_box_NONCEBYTES)
    (hsc : sc.length = sizeof_Secure_MsgSize + crypto_box_MACBYTES)
    (hopen : env.crypto_box_open_easy_afternm sc n session.key = some size)
    (hcap : ntohl size ≤ env.SECURE_MAX_MSGSIZE)
    (hpc : pc.length = ntohl size + crypto_box_MACBYTES)
    (hrej : env.crypto_box_open_easy_afternm pc (flipNonce n) session.key = none) :
    Secure_Recv env session true
      = ⟨SIZE_MAX, some none, { session.sock with inbox := rest },
          [Event.malloc Buf.cyphersize, Event.malloc Buf.nonce,
            Event.netRecv crypto_box_NONCEBYTES,
            Event.netRecv (sizeof_Secure_MsgSize + crypto_box_MACBYTES),
            Event.unseal sc n, Event.free Buf.cyphersize,
            Event.malloc Buf.cyphertext, Event.netRecv (ntohl size + crypto_box_MACBYTES),
            Event.malloc Buf.data, Event.unseal pc (flipNonce n),
            Event.free Buf.cyphertext, Event.free Buf.nonce, Event.free Buf.data]⟩ := by
  obtain ⟨h1, h2⟩ := Net_Recv_header session.sock n sc (pc ++ rest) hin hn hsc
  have h3 : Net_Recv { session.sock with inbox := pc ++ rest } (ntohl size + crypto_box_MACBYTES)
      = (ntohl size + crypto_box_MACBYTES, pc, { session.sock with inbox := rest }) := by
    unfold Net_Recv
    simp only [List.take_left' hpc, List.drop_left' hpc, hpc]
  have hcap' : ¬ ntohl size > env.SECURE_MAX_MSGSIZE := by omega
  unfold Secure_Recv
  simp only [h1, h2, hopen, hcap', h3, hrej, ne_eq, not_true_eq_false, if_false,
    Bool.true_eq_false, List.cons_append, List.nil_append, List.append_assoc]

theorem strictOpen_size (k c : Bytes) (h : toySeal (htonl 1) toyNonce k = some c) :
    strictOpen c toyNonce k = some (htonl 1) := by
  simp [strictOpen, h]

theorem strictOpen_rejects_size (k c d : Bytes) (h : toySeal (htonl 1) toyNonce k = some c)
    (hd : d ≠ c) : strictOpen d toyNonce k = none := by
  have hne : toyNonce ≠ flipNonce toyNonce := by decide
  simp [strictOpen, h, hd, hne]

theorem strictOpen_rejects_payload (k c d : Bytes)
    (h : toySeal [7] (flipNonce toyNonce) k = some c) (hd : d ≠ c) :
    strictOpen d (flipNonce toyNonce) k = none := by
  have hne : flipNonce toyNonce ≠ toyNonce := by decide
  simp [strictOpen, h, hd, hne]

theorem xor_one_testBit_zero (b : Nat) : (b ^^^ 1).testBit 0 = !b.testBit 0 := by
  rw [Nat.testBit_xor]
  simp

theorem xor_one_testBit_succ (b t : Nat) (h : 0 < t) : (b ^^^ 1).testBit t = b.testBit t := by
  rw [Nat.testBit_xor]
  have h1 : Nat.testBit 1 t = false := by
    rw [← Bool.not_eq_true, Nat.testBit_one_eq_true_iff_self_eq_zero]
    omega
  simp [h1]

/-- The sealing calls of `Secure_Send` use the generated nonce for the size
field and the flipped nonce for the payload, and nothing else. -/
theorem Secure_Send_seal_events (env : Secure_Env) (session : Secure_Session)
    (gen data m n : Bytes) (h : Event.seal m n ∈ (Secure_Send env session gen data).log) :
    (m = htonl data.length ∧ n = gen) ∨ (m = data ∧ n = flipNonce gen) := by
  revert h
  unfold Secure_Send
  dsimp only
  repeat' split
  all_goals
    intro h
    simp [sendFrees] at h
    try tauto

/-- The opening calls of `Secure_Recv` use the received nonce for the size
field and the flipped received nonce for the payload, and nothing else. -/
theorem Secure_Recv_unseal_events (env : Secure_Env) (session : Secure_Session)
    (mallocData : Bool) (c n : Bytes)
    (h : Event.unseal c n ∈ (Secure_Recv env session mallocData).log) :
    (n = session.sock.inbox.take crypto_box_NONCEBYTES ∧
      c = (session.sock.inbox.drop crypto_box_NONCEBYTES).take
        (sizeof_Secure_MsgSize + crypto_box_MACBYTES)) ∨
    (n = flipNonce (session.sock.inbox.take crypto_box_NONCEBYTES) ∧
      ∃ size,
        env.crypto_box_open_easy_afternm
          ((session.sock.inbox.drop crypto_box_NONCEBYTES).take
            (sizeof_Secure_MsgSize + crypto_box_MACBYTES))
          (session.sock.inbox.take crypto_box_NONCEBYTES) session.key = some size ∧
        c = (session.sock.inbox.drop
          (crypto_box_NONCEBYTES + (sizeof_Secure_MsgSize + crypto_box_MACBYTES))).take
            (ntohl size + crypto_box_MACBYTES)) := by
  revert h
  unfold Secure_Recv Net_Recv
  dsimp only
  repeat' split
  all_goals
    intro h
    simp at h
    try tauto

/-- A session returned by `Secure_Connect`: every step succeeded, the key is the
agreement of the peer key with the own private key, and the public key was
written whole. -/
theorem Secure_Connect_success (env : Secure_Env) (w : Handshake_World)
    (peer pub priv : Bytes) (s : Secure_Session)
    (h : (Secure_Connect env w peer pub priv).ret = some (some s)) :
    w.newSession = true ∧ w.socketOk = true ∧
      env.Secure_GenSharedKey peer priv = some s.key ∧
      (Secure_SendPublicKey w.sock pub).1 = false ∧
      s.sock.wire = w.sock.wire ++ pub.take crypto_box_PUBLICKEYBYTES := by
  unfold Secure_Connect at h
  dsimp only at h
  split at h
  · simp at h
  · rename_i c1
    split at h
    · simp at h
    · rename_i c2
      split at h
      · simp at h
      · rename_i key hk
        split at h
        · simp at h
        · rename_i c3
          simp only [Option.some.injEq] at h
          subst h
          have hsend : (Net_Send w.sock pub crypto_box_PUBLICKEYBYTES).1
              = (crypto_box_PUBLICKEYBYTES : Int) := by
            simpa [Secure_SendPublicKey] using c3
          refine ⟨by simpa using c1, by simpa using c2, hk, by simpa using c3, ?_⟩
          exact (Net_Send_complete _ _ _ hsend).1

/-- A session returned by `Secure_Accept`: the session was allocated, a whole
public key was read, and the key is the agreement of the bytes read with the
own private key. -/
theorem Secure_Accept_success (env : Secure_Env) (w : Handshake_World)
    (pub priv : Bytes) (s : Secure_Session)
    (h : (Secure_Accept env w pub priv).ret = some (some s)) :
    w.newSession = true ∧
      (w.sock.inbox.take crypto_box_PUBLICKEYBYTES).length = crypto_box_PUBLICKEYBYTES ∧
      env.Secure_GenSharedKey (w.sock.inbox.take crypto_box_PUBLICKEYBYTES) priv
        = some s.key := by
  unfold Secure_Accept at h
  dsimp only at h
  split at h
  · simp at h
  · rename_i c1
    split at h
    · simp at h
    · rename_i c2
      split at h
      · simp at h
      · rename_i key hk
        simp only [Option.some.injEq] at h
        subst h
        refine ⟨by simpa using c1, ?_, ?_⟩
        · simpa [Secure_RecvPublicKey, Net_Recv] using c2
        · simpa [Secure_RecvPublicKey, Net_Recv] using hk

/-- Once a whole nonce and a whole size field have been read, the first
opening call of `Secure_Recv` is the size field under the received nonce. -/
theorem Secure_Recv_opens_size (env : Secure_Env) (session : Secure_Session)
    (mallocData : Bool) (n sc rest : Bytes)
    (hin : session.sock.inbox = n ++ (sc ++ rest))
    (hn : n.length = crypto_box_NONCEBYTES)
    (hsc : sc.length = sizeof_Secure_MsgSize + crypto_box_MACBYTES) :
    ((Secure_Recv env session mallocData).log.filter isUnseal).head?
      = some (Event.unseal sc n) := by
  obtain ⟨h1, h2⟩ := Net_Recv_header session.sock n sc rest hin hn hsc
  unfold Secure_Recv
  simp only [h1, h2, ne_eq, not_true_eq_false, if_false]
  cases env.crypto_box_open_easy_afternm sc n session.key with
  | none => simp [List.filter, isUnseal]
  | some size =>
    dsimp only
    generalize Net_Recv { session.sock with inbox := rest }
      (ntohl size + crypto_box_MACBYTES) = r3
    repeat' split
    all_goals simp [List.filter, isUnseal]

/-- On a well-formed header followed by a payload of the declared size, the
buffer for `*data` being allocated, the opening calls of `Secure_Recv` are
exactly two: the size field under the received nonce, then the payload under
the flipped received nonce. -/
theorem Secure_Recv_opens_payload (env : Secure_Env) (session : Secure_Session)
    (n sc pc rest size : Bytes)
    (hin : session.sock.inbox = n ++ (sc ++ (pc ++ rest)))
    (hn : n.length = crypto_box_NONCEBYTES)
    (hsc : sc.length = sizeof_Secure_MsgSize + crypto_box_MACBYTES)
    (hopen : env.crypto_box_open_easy_afternm sc n session.key = some size)
    (hcap : ntohl size ≤ env.SECURE_MAX_MSGSIZE)
    (hpc : pc.length = ntohl size + crypto_box_MACBYTES) :
    (Secure_Recv env session true).log.filter isUnseal
      = [Event.unseal sc n, Event.unseal pc (flipNonce n)] := by
  obtain ⟨h1, h2⟩ := Net_Recv_header session.sock n sc (pc ++ rest) hin hn hsc
  have h3 : Net_Recv { session.sock with inbox := pc ++ rest } (ntohl size + crypto_box_MACBYTES)
      = (ntohl size + crypto_box_MACBYTES, pc, { session.sock with inbox := rest }) := by
    unfold Net_Recv
    simp only [List.take_left' hpc, List.drop_left' hpc, hpc]
  have hcap' : ¬ ntohl size > env.SECURE_MAX_MSGSIZE := by omega
  unfold Secure_Recv
  simp only [h1, h2, hopen, hcap', h3, ne_eq, not_true_eq_false, if_false,
    Bool.true_eq_false]
  cases env.crypto_box_open_easy_afternm pc (flipNonce n) session.key <;>
    simp [List.filter, isUnseal]

/-! ## Claims on `Secure_Send` -/

/-- C2: a plaintext longer than `SECURE_MAX_MSGSIZE` makes `Secure_Send` return -1
without any `Net_Send` call: the log holds no socket write and the socket,
hence the bytes on the wire, is unchanged. -/
theorem Secure_Send_size_cap (env : Secure_Env) (session : Secure_Session)
    (gen data : Bytes) (h : data.length > env.SECURE_MAX_MSGSIZE) :
    (Secure_Send env session gen data).ret = -1 ∧
      (Secure_Send env session gen data).sock = session.sock ∧
      ∀ buf n, Event.netSend buf n ∉ (Secure_Send env session gen data).log := by
  unfold Secure_Send
  simp [h, sendFrees]

theorem Secure_Send_size_cap_witness :
    ([1, 2, 3, 4, 5, 6, 7, 8, 9] : Bytes).length > toyEnv.SECURE_MAX_MSGSIZE ∧
      (Secure_Send toyEnv ⟨freshSock [], toyKey⟩ toyNonce [1, 2, 3, 4, 5, 6, 7, 8, 9]).ret = -1 ∧
      (Secure_Send toyEnv ⟨freshSock [], toyKey⟩ toyNonce [1, 2, 3, 4, 5, 6, 7, 8, 9]).sock
        = freshSock [] ∧
      ∀ buf n, Event.netSend buf n ∉
        (Secure_Send toyEnv ⟨freshSock [], toyKey⟩ toyNonce [1, 2, 3, 4, 5, 6, 7, 8, 9]).log :=
  ⟨by decide, Secure_Send_size_cap toyEnv ⟨freshSock [], toyKey⟩ toyNonce
    [1, 2, 3, 4, 5, 6, 7, 8, 9] (by decide)⟩

/-- C3, the code at a short third write: with a one-byte plaintext, the nonce
and the encrypted size written whole and only 5 of the 17 bytes of the payload
ciphertext transferred, `Secure_Send` returns 5, not -1; the result of the
third `Net_Send` is returned untested. -/
theorem Secure_Send_short_payload_write :
    (Secure_Send toyEnv ⟨⟨[], [some 24, some 20, some 5], []⟩, toyKey⟩ toyNonce [7]).ret = 5 ∧
      (Secure_Send toyEnv ⟨⟨[], [some 24, some 20, some 5], []⟩, toyKey⟩ toyNonce [7]).ret ≠ -1 ∧
      ((Secure_Send toyEnv ⟨⟨[], [some 24, some 20, some 5], []⟩, toyKey⟩ toyNonce
        [7]).sock.wire).length = 24 + 20 + 5 ∧
      (Secure_Send toyEnv ⟨⟨[], [some 5], []⟩, toyKey⟩ toyNonce [7]).ret = -1 ∧
      (Secure_Send toyEnv ⟨⟨[], [some 24, some 5], []⟩, toyKey⟩ toyNonce [7]).ret = -1 := by
  decide

/-- What `Secure_Send` returns once both sealings succeeded on a plaintext within
the cap: -1 when the write of the nonce is short, -1 when the write of the
encrypted size is short, and otherwise the result of the third `Net_Send`,
whatever it is. -/
theorem Secure_Send_checked_writes (env : Secure_Env) (session : Secure_Session)
    (gen data cs ct : Bytes)
    (hcap : data.length ≤ env.SECURE_MAX_MSGSIZE)
    (hcs : env.crypto_box_easy_afternm (htonl data.length) gen session.key = some cs)
    (hct : env.crypto_box_easy_afternm data (flipNonce gen) session.key = some ct) :
    ((Net_Send session.sock gen crypto_box_NONCEBYTES).1 ≠ (crypto_box_NONCEBYTES : Int) →
      (Secure_Send env session gen data).ret = -1) ∧
    ((Net_Send session.sock gen crypto_box_NONCEBYTES).1 = (crypto_box_NONCEBYTES : Int) →
      (Net_Send (Net_Send session.sock gen crypto_box_NONCEBYTES).2 cs
          (sizeof_Secure_MsgSize + crypto_box_MACBYTES)).1
        ≠ ((sizeof_Secure_MsgSize + crypto_box_MACBYTES : Nat) : Int) →
      (Secure_Send env session gen data).ret = -1) ∧
    ((Net_Send session.sock gen crypto_box_NONCEBYTES).1 = (crypto_box_NONCEBYTES : Int) →
      (Net_Send (Net_Send session.sock gen crypto_box_NONCEBYTES).2 cs
          (sizeof_Secure_MsgSize + crypto_box_MACBYTES)).1
        = ((sizeof_Secure_MsgSize + crypto_box_MACBYTES : Nat) : Int) →
      (Secure_Send env session gen data).ret
        = (Net_Send
            (Net_Send (Net_Send session.sock gen crypto_box_NONCEBYTES).2 cs
              (sizeof_Secure_MsgSize + crypto_box_MACBYTES)).2
            ct (data.length + crypto_box_MACBYTES)).1) := by
  have hcap' : ¬ data.length > env.SECURE_MAX_MSGSIZE := by omega
  refine ⟨fun h1 => ?_, fun h1 h2 => ?_, fun h1 h2 => ?_⟩
  · unfold Secure_Send
    simp only [hcap', hcs, hct, flipNonce_flipNonce, ne_eq, h1, not_false_eq_true,
      if_false, if_true]
  · unfold Secure_Send
    simp only [hcap', hcs, hct, flipNonce_flipNonce, ne_eq, h1, h2, not_true_eq_false,
      not_false_eq_true, if_false, if_true]
  · unfold Secure_Send
    simp only [hcap', hcs, hct, flipNonce_flipNonce, ne_eq, h1, h2, not_true_eq_false,
      if_false]

/-- C4: wire format. With a nonce `gen` of `crypto_box_NONCEBYTES` bytes, a
plaintext within the cap, `sc` the sealing of the big-endian length under `gen`
and `pc` the sealing of the plaintext under the flipped nonce (each
`crypto_box_MACBYTES` longer than its input), a `Secure_Send` whose writes all
complete appends to the wire exactly `gen ++ sc ++ pc`, by three `Net_Send` calls
in that order; the nonce sent is the original one and the frame is
`NONCEBYTES + (4 + MACBYTES) + (len + MACBYTES)` bytes long. -/
theorem Secure_Send_wire_format (env : Secure_Env) (session : Secure_Session)
    (gen data sc pc : Bytes)
    (hn : gen.length = crypto_box_NONCEBYTES)
    (_hcap : data.length ≤ env.SECURE_MAX_MSGSIZE)
    (hsc : env.crypto_box_easy_afternm (htonl data.length) gen session.key = some sc)
    (hpc : env.crypto_box_easy_afternm data (flipNonce gen) session.key = some pc)
    (hlsc : sc.length = sizeof_Secure_MsgSize + crypto_box_MACBYTES)
    (hlpc : pc.length = data.length + crypto_box_MACBYTES)
    (hdone : (Secure_Send env session gen data).ret
      = ((data.length + crypto_box_MACBYTES : Nat) : Int)) :
    (Secure_Send env session gen data).sock.wire = session.sock.wire ++ (gen ++ sc ++ pc) ∧
      (gen ++ sc ++ pc).length
        = crypto_box_NONCEBYTES + (4 + crypto_box_MACBYTES)
          + (data.length + crypto_box_MACBYTES) ∧
      (Secure_Send env session gen data).log.filter
          (fun e => match e with
            | Event.netSend _ _ => true
            | _ => false)
        = [Event.netSend gen crypto_box_NONCEBYTES,
            Event.netSend sc (sizeof_Secure_MsgSize + crypto_box_MACBYTES),
            Event.netSend pc (data.length + crypto_box_MACBYTES)] := by
  obtain ⟨cs, ct, h1, h2, _, hw, hl⟩ := Secure_Send_complete env session gen data hdone
  rw [hsc] at h1
  rw [hpc] at h2
  cases h1
  cases h2
  refine ⟨?_, ?_, ?_⟩
  · rw [hw, ← hn, ← hlsc, ← hlpc]
    simp
  · simp only [List.length_append, hn, hlsc, hlpc, sizeof_Secure_MsgSize]
  · rw [hl]
    simp [sendFrees, List.filter]

theorem Secure_Send_wire_format_witness :
    (Secure_Send toyEnv ⟨freshSock [], toyKey⟩ toyNonce [7]).sock.wire
        = [] ++ (toyNonce ++ ([0, 0, 0, 1] ++ List.replicate 16 27)
          ++ ([7] ++ List.replicate 16 34)) ∧
      (toyNonce ++ ([0, 0, 0, 1] ++ List.replicate 16 27)
          ++ ([7] ++ List.replicate 16 34)).length
        = crypto_box_NONCEBYTES + (4 + crypto_box_MACBYTES)
          + (([7] : Bytes).length + crypto_box_MACBYTES) ∧
      (Secure_Send toyEnv ⟨freshSock [], toyKey⟩ toyNonce [7]).log.filter
          (fun e => match e with
            | Event.netSend _ _ => true
            | _ => false)
        = [Event.netSend toyNonce crypto_box_NONCEBYTES,
            Event.netSend ([0, 0, 0, 1] ++ List.replicate 16 27)
              (sizeof_Secure_MsgSize + crypto_box_MACBYTES),
            Event.netSend ([7] ++ List.replicate 16 34)
              (([7] : Bytes).length + crypto_box_MACBYTES)] :=
  Secure_Send_wire_format toyEnv ⟨freshSock [], toyKey⟩ toyNonce [7]
    ([0, 0, 0, 1] ++ List.replicate 16 27) ([7] ++ List.replicate 16 34)
    (by decide) (by decide) (by decide) (by decide) (by decide) (by decide) (by decide)

/-! ## Claims on `Secure_Recv` -/

/-- Every return of `Secure_Recv` is the error value or a length within the cap. -/
theorem Secure_Recv_ret_cases (env : Secure_Env) (session : Secure_Session)
    (mallocData : Bool) :
    (Secure_Recv env session mallocData).ret = SIZE_MAX ∨
      (Secure_Recv env session mallocData).ret ≤ env.SECURE_MAX_MSGSIZE := by
  unfold Secure_Recv
  dsimp only
  repeat' split
  all_goals first
    | exact Or.inl rfl
    | exact Or.inr (by dsimp only; omega)

/-- C5: declared-length cap on receive. On a stream that starts with a nonce
`n` and a size field `sc` which opens under `n` to a big-endian length above
`SECURE_MAX_MSGSIZE`, `Secure_Recv` returns the error value, never writes
`*data`, leaves every byte after the size field unread (its only reads are
the nonce and the size field) and allocates neither the payload ciphertext
buffer nor the plaintext buffer. And whenever `Secure_Recv` returns something
other than the error value, that length is at most `SECURE_MAX_MSGSIZE`. -/
theorem Secure_Recv_declared_length_cap (env : Secure_Env) (session : Secure_Session)
    (mallocData : Bool) :
    (∀ n sc rest size : Bytes,
      session.sock.inbox = n ++ (sc ++ rest) →
      n.length = crypto_box_NONCEBYTES →
      sc.length = sizeof_Secure_MsgSize + crypto_box_MACBYTES →
      env.crypto_box_open_easy_afternm sc n session.key = some size →
      ntohl size > env.SECURE_MAX_MSGSIZE →
        (Secure_Recv env session mallocData).ret = SIZE_MAX ∧
        (Secure_Recv env session mallocData).data = none ∧
        (Secure_Recv env session mallocData).sock.inbox = rest ∧
        Event.malloc Buf.cyphertext ∉ (Secure_Recv env session mallocData).log ∧
        Event.malloc Buf.data ∉ (Secure_Recv env session mallocData).log ∧
        (Secure_Recv env session mallocData).log.filter
            (fun e => match e with
              | Event.netRecv _ => true
              | _ => false)
          = [Event.netRecv crypto_box_NONCEBYTES,
              Event.netRecv (sizeof_Secure_MsgSize + crypto_box_MACBYTES)]) ∧
      ((Secure_Recv env session mallocData).ret ≠ SIZE_MAX →
        (Secure_Recv env session mallocData).ret ≤ env.SECURE_MAX_MSGSIZE) := by
  refine ⟨?_, fun h => (Secure_Recv_ret_cases env session mallocData).resolve_left h⟩
  intro n sc rest size hin hn hsc hopen hbig
  rw [Secure_Recv_size_too_large env session mallocData n sc rest size hin hn hsc hopen hbig]
  simp [List.filter]

theorem Secure_Recv_declared_length_cap_witness :
    ((Secure_Recv toyEnv
        ⟨freshSock (toyNonce ++ (([0, 0, 0, 9] ++ List.replicate 16 35) ++ [1, 2, 3])),
          toyKey⟩ true).ret = SIZE_MAX ∧
      (Secure_Recv toyEnv
        ⟨freshSock (toyNonce ++ (([0, 0, 0, 9] ++ List.replicate 16 35) ++ [1, 2, 3])),
          toyKey⟩ true).data = none ∧
      (Secure_Recv toyEnv
        ⟨freshSock (toyNonce ++ (([0, 0, 0, 9] ++ List.replicate 16 35) ++ [1, 2, 3])),
          toyKey⟩ true).sock.inbox = [1, 2, 3] ∧
      Event.malloc Buf.cyphertext ∉ (Secure_Recv toyEnv
        ⟨freshSock (toyNonce ++ (([0, 0, 0, 9] ++ List.replicate 16 35) ++ [1, 2, 3])),
          toyKey⟩ true).log ∧
      Event.malloc Buf.data ∉ (Secure_Recv toyEnv
        ⟨freshSock (toyNonce ++ (([0, 0, 0, 9] ++ List.replicate 16 35) ++ [1, 2, 3])),
          toyKey⟩ true).log ∧
      (Secure_Recv toyEnv
        ⟨freshSock (toyNonce ++ (([0, 0, 0, 9] ++ List.replicate 16 35) ++ [1, 2, 3])),
          toyKey⟩ true).log.filter
          (fun e => match e with
            | Event.netRecv _ => true
            | _ => false)
        = [Event.netRecv crypto_box_NONCEBYTES,
            Event.netRecv (sizeof_Secure_MsgSize + crypto_box_MACBYTES)]) ∧
    (Secure_Recv toyEnv
        ⟨freshSock (Secure_Send toyEnv ⟨freshSock [], toyKey⟩ toyNonce [7, 8]).sock.wire,
          toyKey⟩ true).ret ≤ toyEnv.SECURE_MAX_MSGSIZE :=
  ⟨(Secure_Recv_declared_length_cap toyEnv
      ⟨freshSock (toyNonce ++ (([0, 0, 0, 9] ++ List.replicate 16 35) ++ [1, 2, 3])),
        toyKey⟩ true).1 toyNonce ([0, 0, 0, 9] ++ List.replicate 16 35) [1, 2, 3] [0, 0, 0, 9]
      rfl (by decide) (by decide) (by decide) (by decide),
    (Secure_Recv_declared_length_cap toyEnv
      ⟨freshSock (Secure_Send toyEnv ⟨freshSock [], toyKey⟩ toyNonce [7, 8]).sock.wire,
        toyKey⟩ true).2 (by decide)⟩

/-- C6: tamper detection. Take a frame written by a complete `Secure_Send` (nonce
of `crypto_box_NONCEBYTES` bytes, plaintext within a cap that fits 32 bits,
sealing adding `crypto_box_MACBYTES` bytes), and flip bit `j` of its byte `i`,
where `i` lies after the nonce. Assume that under the session key the size
field opens to the encoded length, and that opening rejects every ciphertext
other than the sealed one, for the size field under the nonce and for the
payload under the flipped nonce. Then `Secure_Recv` on the tampered frame
returns the error value and `*data` never holds a plaintext: it is never
written when the flipped byte is in the size field, and it is the null pointer
when the flipped byte is in the payload, the buffer allocated for it having
been released. -/
theorem Secure_Recv_tamper (env : Secure_Env) (sender receiver : Secure_Session)
    (gen data : Bytes) (i j : Nat) (mallocData : Bool)
    (h32 : env.SECURE_MAX_MSGSIZE < 2 ^ 32)
    (hn : gen.length = crypto_box_NONCEBYTES)
    (hcap : data.length ≤ env.SECURE_MAX_MSGSIZE)
    (hlen : ∀ m n k c, env.crypto_box_easy_afternm m n k = some c →
      c.length = m.length + crypto_box_MACBYTES)
    (hinvS : ∀ c, env.crypto_box_easy_afternm (htonl data.length) gen sender.key = some c →
      env.crypto_box_open_easy_afternm c gen sender.key = some (htonl data.length))
    (hrejS : ∀ c d, env.crypto_box_easy_afternm (htonl data.length) gen sender.key = some c →
      d ≠ c → env.crypto_box_open_easy_afternm d gen sender.key = none)
    (hrejP : ∀ c d, env.crypto_box_easy_afternm data (flipNonce gen) sender.key = some c →
      d ≠ c → env.crypto_box_open_easy_afternm d (flipNonce gen) sender.key = none)
    (hkey : receiver.key = sender.key)
    (hempty : sender.sock.wire = [])
    (hsent : (Secure_Send env sender gen data).ret
      = ((data.length + crypto_box_MACBYTES : Nat) : Int))
    (hi : crypto_box_NONCEBYTES ≤ i)
    (hi2 : i < (Secure_Send env sender gen data).sock.wire.length)
    (htamper : receiver.sock.inbox = flipBit (Secure_Send env sender gen data).sock.wire i j) :
    (Secure_Recv env receiver mallocData).ret = SIZE_MAX ∧
      (∀ b, (Secure_Recv env receiver mallocData).data ≠ some (some b)) ∧
      (i < crypto_box_NONCEBYTES + (sizeof_Secure_MsgSize + crypto_box_MACBYTES) →
        (Secure_Recv env receiver mallocData).data = none) ∧
      (crypto_box_NONCEBYTES + (sizeof_Secure_MsgSize + crypto_box_MACBYTES) ≤ i →
        (Secure_Recv env receiver mallocData).data = some none ∧
        (mallocData = true →
          (Secure_Recv env receiver mallocData).log.count (Event.malloc Buf.data) = 1 ∧
          (Secure_Recv env receiver mallocData).log.count (Event.free Buf.data) = 1)) := by
  obtain ⟨cs, ct, h1, h2, _, hw, _⟩ := Secure_Send_complete env sender gen data hsent
  have hcs : cs.length = sizeof_Secure_MsgSize + crypto_box_MACBYTES := by
    rw [hlen _ _ _ _ h1]; simp [htonl, sizeof_Secure_MsgSize]
  have hct : ct.length = data.length + crypto_box_MACBYTES := hlen _ _ _ _ h2
  have hnt : ntohl (htonl data.length) = data.length := by
    rw [ntohl_htonl]; exact Nat.mod_eq_of_lt (by omega)
  have hframe : (Secure_Send env sender gen data).sock.wire = gen ++ (cs ++ ct) := by
    rw [hw, hempty, ← hn, ← hcs, ← hct]
    simp
  rw [hframe] at htamper hi2
  simp only [List.length_append, hn, hcs, hct] at hi2
  by_cases hlt : i < crypto_box_NONCEBYTES + (sizeof_Secure_MsgSize + crypto_box_MACBYTES)
  · -- the flipped byte lies in the encrypted size field
    have hin : receiver.sock.inbox = gen ++ (flipBit cs (i - gen.length) j ++ ct) := by
      rw [htamper, flipBit_append_right _ _ _ _ (by omega),
        flipBit_append_left _ _ _ _ (by omega)]
    have hne : flipBit cs (i - gen.length) j ≠ cs := flipBit_ne _ _ _ (by omega)
    have hrej := hrejS cs _ h1 hne
    rw [← hkey] at hrej
    obtain ⟨hr, hd⟩ := Secure_Recv_size_rejected env receiver mallocData gen _ ct hin hn
      (by rw [flipBit_length]; exact hcs) hrej
    refine ⟨hr, ?_, fun _ => hd, fun h => absurd hlt (by omega)⟩
    intro b hb
    rw [hd] at hb
    cases hb
  · -- the flipped byte lies in the payload ciphertext
    have hin : receiver.sock.inbox
        = gen ++ (cs ++ (flipBit ct (i - gen.length - cs.length) j ++ [])) := by
      rw [htamper, flipBit_append_right _ _ _ _ (by omega),
        flipBit_append_right _ _ _ _ (by omega)]
      simp
    have hne : flipBit ct (i - gen.length - cs.length) j ≠ ct := flipBit_ne _ _ _ (by omega)
    have hrej := hrejP ct _ h2 hne
    have hopen := hinvS cs h1
    rw [← hkey] at hrej hopen
    have hcap2 : ntohl (htonl data.length) ≤ env.SECURE_MAX_MSGSIZE := by rw [hnt]; exact hcap
    have hlen2 : (flipBit ct (i - gen.length - cs.length) j).length
        = ntohl (htonl data.length) + crypto_box_MACBYTES := by
      rw [flipBit_length, hnt]; exact hct
    cases mallocData with
    | false =>
      obtain ⟨hr, hd, _⟩ := Secure_Recv_payload env receiver false gen cs _ []
        (htonl data.length) hin hn hcs hopen hcap2 hlen2
      simp only [if_true] at hr hd
      refine ⟨hr, ?_, fun h => absurd h hlt, fun _ => ⟨hd, fun h => absurd h (by simp)⟩⟩
      intro b hb
      rw [hd] at hb
      cases hb
    | true =>
      have hres := Secure_Recv_payload_rejected env receiver gen cs _ []
        (htonl data.length) hin hn hcs hopen hcap2 hlen2 hrej
      rw [hres]
      refine ⟨rfl, ?_, fun h => absurd h hlt, fun _ => ⟨rfl, fun _ => ?_⟩⟩
      · intro b hb
        cases hb
      · simp [List.count_cons]

theorem Secure_Recv_tamper_witness :
    ((Secure_Recv strictEnv
        ⟨freshSock (flipBit (Secure_Send strictEnv ⟨freshSock [], toyKey⟩ toyNonce
          [7]).sock.wire 30 3), toyKey⟩ true).ret = SIZE_MAX ∧
      (Secure_Recv strictEnv
        ⟨freshSock (flipBit (Secure_Send strictEnv ⟨freshSock [], toyKey⟩ toyNonce
          [7]).sock.wire 30 3), toyKey⟩ true).data = none) ∧
    ((Secure_Recv strictEnv
        ⟨freshSock (flipBit (Secure_Send strictEnv ⟨freshSock [], toyKey⟩ toyNonce
          [7]).sock.wire 50 0), toyKey⟩ true).ret = SIZE_MAX ∧
      (Secure_Recv strictEnv
        ⟨freshSock (flipBit (Secure_Send strictEnv ⟨freshSock [], toyKey⟩ toyNonce
          [7]).sock.wire 50 0), toyKey⟩ true).data = some none) :=
  ⟨⟨(Secure_Recv_tamper strictEnv ⟨freshSock [], toyKey⟩
        ⟨freshSock (flipBit (Secure_Send strictEnv ⟨freshSock [], toyKey⟩ toyNonce
          [7]).sock.wire 30 3), toyKey⟩ toyNonce [7] 30 3 true
        (by decide) (by decide) (by decide) toySeal_length (strictOpen_size toyKey)
        (strictOpen_rejects_size toyKey) (strictOpen_rejects_payload toyKey)
        rfl rfl (by decide) (by decide) (by decide) rfl).1,
      (Secure_Recv_tamper strictEnv ⟨freshSock [], toyKey⟩
        ⟨freshSock (flipBit (Secure_Send strictEnv ⟨freshSock [], toyKey⟩ toyNonce
          [7]).sock.wire 30 3), toyKey⟩ toyNonce [7] 30 3 true
        (by decide) (by decide) (by decide) toySeal_length (strictOpen_size toyKey)
        (strictOpen_rejects_size toyKey) (strictOpen_rejects_payload toyKey)
        rfl rfl (by decide) (by decide) (by decide) rfl).2.2.1 (by decide)⟩,
    ⟨(Secure_Recv_tamper strictEnv ⟨freshSock [], toyKey⟩
        ⟨freshSock (flipBit (Secure_Send strictEnv ⟨freshSock [], toyKey⟩ toyNonce
          [7]).sock.wire 50 0), toyKey⟩ toyNonce [7] 50 0 true
        (by decide) (by decide) (by decide) toySeal_length (strictOpen_size toyKey)
        (strictOpen_rejects_size toyKey) (strictOpen_rejects_payload toyKey)
        rfl rfl (by decide) (by decide) (by decide) rfl).1,
      ((Secure_Recv_tamper strictEnv ⟨freshSock [], toyKey⟩
        ⟨freshSock (flipBit (Secure_Send strictEnv ⟨freshSock [], toyKey⟩ toyNonce
          [7]).sock.wire 50 0), toyKey⟩ toyNonce [7] 50 0 true
        (by decide) (by decide) (by decide) toySeal_length (strictOpen_size toyKey)
        (strictOpen_rejects_size toyKey) (strictOpen_rejects_payload toyKey)
        rfl rfl (by decide) (by decide) (by decide) rfl).2.2.2 (by decide)).1⟩⟩

/-! ## Nonce discipline -/

/-- C10: nonce separation within one message. For a nonce `gen` of
`crypto_box_NONCEBYTES` bytes: the flipped nonce differs from `gen`, has the same
length, agrees with it on every byte but byte 0, and its byte 0 is byte 0 of `gen`
with bit 0 inverted and every other bit kept; flipping twice gives `gen` back.
Every sealing call of `Secure_Send` is the size field under `gen` or the
payload under the flipped nonce (both, in that order, when the send
completes). Every opening call of `Secure_Recv` is the size field under the
received nonce or the payload under the flipped received nonce. Moreover
`Secure_Recv` does make these calls: once a whole nonce `n` and a whole size
field are read, its first opening call is the size field under `n`; on a
well-formed header followed by a payload of the declared size (the buffer for
`*data` being allocated) its opening calls are exactly the size field under `n`
and then the payload under the flipped `n`; and on the frame
`gen ++ cs ++ ct` written by `Secure_Send`, read with the same key, they are
exactly `cs` under `gen` and `ct` under the flipped `gen`, the pair used by
`Secure_Send`. -/
theorem Secure_nonce_separation (env : Secure_Env) (sender receiver : Secure_Session)
    (gen data : Bytes) (mallocData : Bool) (hn : gen.length = crypto_box_NONCEBYTES) :
    flipNonce gen ≠ gen ∧
      (flipNonce gen).length = gen.length ∧
      (∀ i, 0 < i → (flipNonce gen)[i]? = gen[i]?) ∧
      (∃ b, gen[0]? = some b ∧ (flipNonce gen)[0]? = some (b ^^^ 1) ∧
        (b ^^^ 1).testBit 0 = (!b.testBit 0) ∧
        ∀ t, 0 < t → (b ^^^ 1).testBit t = b.testBit t) ∧
      flipNonce (flipNonce gen) = gen ∧
      (∀ m n, Event.seal m n ∈ (Secure_Send env sender gen data).log →
        (m = htonl data.length ∧ n = gen) ∨ (m = data ∧ n = flipNonce gen)) ∧
      ((Secure_Send env sender gen data).ret
          = ((data.length + crypto_box_MACBYTES : Nat) : Int) →
        (Secure_Send env sender gen data).log.filter
            (fun e => match e with
              | Event.seal _ _ => true
              | _ => false)
          = [Event.seal (htonl data.length) gen, Event.seal data (flipNonce gen)]) ∧
      (∀ c n, Event.unseal c n ∈ (Secure_Recv env receiver mallocData).log →
        (n = receiver.sock.inbox.take crypto_box_NONCEBYTES ∧
          c = (receiver.sock.inbox.drop crypto_box_NONCEBYTES).take
            (sizeof_Secure_MsgSize + crypto_box_MACBYTES)) ∨
        (n = flipNonce (receiver.sock.inbox.take crypto_box_NONCEBYTES) ∧
          ∃ size,
            env.crypto_box_open_easy_afternm
              ((receiver.sock.inbox.drop crypto_box_NONCEBYTES).take
                (sizeof_Secure_MsgSize + crypto_box_MACBYTES))
              (receiver.sock.inbox.take crypto_box_NONCEBYTES) receiver.key = some size ∧
            c = (receiver.sock.inbox.drop
              (crypto_box_NONCEBYTES + (sizeof_Secure_MsgSize + crypto_box_MACBYTES))).take
                (ntohl size + crypto_box_MACBYTES))) ∧
      (∀ n sc rest : Bytes,
        receiver.sock.inbox = n ++ (sc ++ rest) →
        n.length = crypto_box_NONCEBYTES →
        sc.length = sizeof_Secure_MsgSize + crypto_box_MACBYTES →
        ((Secure_Recv env receiver mallocData).log.filter isUnseal).head?
          = some (Event.unseal sc n)) ∧
      (∀ n sc pc rest size : Bytes,
        receiver.sock.inbox = n ++ (sc ++ (pc ++ rest)) →
        n.length = crypto_box_NONCEBYTES →
        sc.length = sizeof_Secure_MsgSize + crypto_box_MACBYTES →
        env.crypto_box_open_easy_afternm sc n receiver.key = some size →
        ntohl size ≤ env.SECURE_MAX_MSGSIZE →
        pc.length = ntohl size + crypto_box_MACBYTES →
        mallocData = true →
        (Secure_Recv env receiver mallocData).log.filter isUnseal
          = [Event.unseal sc n, Event.unseal pc (flipNonce n)]) ∧
      (∀ cs ct : Bytes,
        env.SECURE_MAX_MSGSIZE < 2 ^ 32 →
        data.length ≤ env.SECURE_MAX_MSGSIZE →
        env.crypto_box_easy_afternm (htonl data.length) gen sender.key = some cs →
        env.crypto_box_easy_afternm data (flipNonce gen) sender.key = some ct →
        cs.length = sizeof_Secure_MsgSize + crypto_box_MACBYTES →
        ct.length = data.length + crypto_box_MACBYTES →
        env.crypto_box_open_easy_afternm cs gen sender.key = some (htonl data.length) →
        receiver.key = sender.key →
        receiver.sock.inbox = gen ++ (cs ++ ct) →
        mallocData = true →
        (Secure_Recv env receiver mallocData).log.filter isUnseal
          = [Event.unseal cs gen, Event.unseal ct (flipNonce gen)]) := by
  have hne : gen ≠ [] := by
    intro h
    rw [h] at hn
    simp [crypto_box_NONCEBYTES] at hn
  refine ⟨flipNonce_ne gen hne, flipNonce_length gen, ?_, ?_, flipNonce_flipNonce gen,
    fun m n h => Secure_Send_seal_events env sender gen data m n h, ?_,
    fun c n h => Secure_Recv_unseal_events env receiver mallocData c n h,
    fun n sc rest hin hn' hsc =>
      Secure_Recv_opens_size env receiver mallocData n sc rest hin hn' hsc, ?_, ?_⟩
  · intro i hi
    cases gen with
    | nil => rfl
    | cons b rest =>
      cases i with
      | zero => omega
      | succ i => simp [flipNonce]
  · cases gen with
    | nil => exact absurd rfl hne
    | cons b rest =>
      exact ⟨b, by simp, by simp [flipNonce], xor_one_testBit_zero b,
        fun t ht => xor_one_testBit_succ b t ht⟩
  · intro hdone
    obtain ⟨cs, ct, _, _, _, _, hl⟩ := Secure_Send_complete env sender gen data hdone
    rw [hl]
    simp [sendFrees, List.filter]
  · intro n sc pc rest size hin hn' hsc hopen hcap hpc hm
    subst hm
    exact Secure_Recv_opens_payload env receiver n sc pc rest size hin hn' hsc hopen hcap hpc
  · intro cs ct h32 hcap _ _ hcs hct hopen hkey hin hm
    subst hm
    have hnt : ntohl (htonl data.length) = data.length := by
      rw [ntohl_htonl]; exact Nat.mod_eq_of_lt (by omega)
    rw [← hkey] at hopen
    exact Secure_Recv_opens_payload env receiver gen cs ct [] (htonl data.length)
      (by rw [hin]; simp) hn hcs hopen (by rw [hnt]; exact hcap) (by rw [hnt]; exact hct)

theorem Secure_nonce_separation_witness :
    flipNonce toyNonce ≠ toyNonce ∧ flipNonce (flipNonce toyNonce) = toyNonce ∧
      (Secure_Send toyEnv ⟨freshSock [], toyKey⟩ toyNonce [7]).log.filter
          (fun e => match e with
            | Event.seal _ _ => true
            | _ => false)
        = [Event.seal (htonl ([7] : Bytes).length) toyNonce,
            Event.seal [7] (flipNonce toyNonce)] ∧
      ((Secure_Recv toyEnv
          ⟨freshSock (Secure_Send toyEnv ⟨freshSock [], toyKey⟩ toyNonce [7]).sock.wire,
            toyKey⟩ true).log.filter isUnseal).head?
        = some (Event.unseal ([0, 0, 0, 1] ++ List.replicate 16 27) toyNonce) ∧
      (Secure_Recv toyEnv
          ⟨freshSock (Secure_Send toyEnv ⟨freshSock [], toyKey⟩ toyNonce [7]).sock.wire,
            toyKey⟩ true).log.filter isUnseal
        = [Event.unseal ([0, 0, 0, 1] ++ List.replicate 16 27) toyNonce,
            Event.unseal ([7] ++ List.replicate 16 34) (flipNonce toyNonce)] :=
  ⟨(Secure_nonce_separation toyEnv ⟨freshSock [], toyKey⟩
      ⟨freshSock (Secure_Send toyEnv ⟨freshSock [], toyKey⟩ toyNonce [7]).sock.wire, toyKey⟩
      toyNonce [7] true (by decide)).1,
    (Secure_nonce_separation toyEnv ⟨freshSock [], toyKey⟩
      ⟨freshSock (Secure_Send toyEnv ⟨freshSock [], toyKey⟩ toyNonce [7]).sock.wire, toyKey⟩
      toyNonce [7] true (by decide)).2.2.2.2.1,
    (Secure_nonce_separation toyEnv ⟨freshSock [], toyKey⟩
      ⟨freshSock (Secure_Send toyEnv ⟨freshSock [], toyKey⟩ toyNonce [7]).sock.wire, toyKey⟩
      toyNonce [7] true (by decide)).2.2.2.2.2.2.1 (by decide),
    (Secure_nonce_separation toyEnv ⟨freshSock [], toyKey⟩
      ⟨freshSock (Secure_Send toyEnv ⟨freshSock [], toyKey⟩ toyNonce [7]).sock.wire, toyKey⟩
      toyNonce [7] true (by decide)).2.2.2.2.2.2.2.2.1
      toyNonce ([0, 0, 0, 1] ++ List.replicate 16 27) ([7] ++ List.replicate 16 34)
      (by decide) (by decide) (by decide),
    (Secure_nonce_separation toyEnv ⟨freshSock [], toyKey⟩
      ⟨freshSock (Secure_Send toyEnv ⟨freshSock [], toyKey⟩ toyNonce [7]).sock.wire, toyKey⟩
      toyNonce [7] true (by decide)).2.2.2.2.2.2.2.2.2.2
      ([0, 0, 0, 1] ++ List.replicate 16 27) ([7] ++ List.replicate 16 34)
      (by decide) (by decide) (by decide) (by decide) (by decide) (by decide) (by decide)
      rfl (by decide) rfl⟩

/-! ## Handshake -/

/-- C8: handshake symmetry. Let the key agreement satisfy
`KeyAgree(B_pub, A_priv) = KeyAgree(A_pub, B_priv)`, let `A_pub` have
`crypto_box_PUBLICKEYBYTES` bytes, and let the accepting side read the bytes the
connecting side wrote on a wire that was empty. If `Secure_Connect` returns a
session `sA` and `Secure_Accept` returns a session `sB`, then their keys are
equal; the key of `sA` is the agreement of the peer key given by the caller
with the private key of A, the bytes sent are `A_pub`, and the key of `sB` is
the agreement of the bytes sent with the private key of B. -/
theorem Secure_handshake_symmetry (env : Secure_Env) (wA wB : Handshake_World)
    (A_pub A_priv B_pub B_priv rest : Bytes) (sA sB : Secure_Session)
    (hagree : env.Secure_GenSharedKey B_pub A_priv = env.Secure_GenSharedKey A_pub B_priv)
    (hpub : A_pub.length = crypto_box_PUBLICKEYBYTES)
    (hwire : wA.sock.wire = [])
    (hA : (Secure_Connect env wA B_pub A_pub A_priv).ret = some (some sA))
    (hdeliver : wB.sock.inbox = sA.sock.wire ++ rest)
    (hB : (Secure_Accept env wB B_pub B_priv).ret = some (some sB)) :
    sA.key = sB.key ∧
      env.Secure_GenSharedKey B_pub A_priv = some sA.key ∧
      sA.sock.wire = A_pub ∧
      env.Secure_GenSharedKey sA.sock.wire B_priv = some sB.key := by
  obtain ⟨_, _, hkA, _, hwA⟩ := Secure_Connect_success env wA B_pub A_pub A_priv sA hA
  obtain ⟨_, _, hkB⟩ := Secure_Accept_success env wB B_pub B_priv sB hB
  have hsent : sA.sock.wire = A_pub := by
    rw [hwA, hwire, ← hpub]
    simp
  rw [hdeliver, hsent, List.take_left' hpub] at hkB
  refine ⟨?_, hkA, hsent, by rw [hsent]; exact hkB⟩
  rw [hagree, hkB] at hkA
  exact (Option.some.inj hkA).symm

theorem Secure_handshake_symmetry_witness :
    (⟨⟨List.replicate 32 1, [], []⟩, List.replicate 32 3⟩ : Secure_Session).key
        = (⟨⟨[], [], [9]⟩, List.replicate 32 3⟩ : Secure_Session).key ∧
      toyEnv.Secure_GenSharedKey (List.replicate 32 2) (List.replicate 32 1)
        = some (⟨⟨List.replicate 32 1, [], []⟩, List.replicate 32 3⟩ : Secure_Session).key ∧
      (⟨⟨List.replicate 32 1, [], []⟩, List.replicate 32 3⟩ : Secure_Session).sock.wire
        = List.replicate 32 1 ∧
      toyEnv.Secure_GenSharedKey
          (⟨⟨List.replicate 32 1, [], []⟩, List.replicate 32 3⟩ : Secure_Session).sock.wire
          (List.replicate 32 2)
        = some (⟨⟨[], [], [9]⟩, List.replicate 32 3⟩ : Secure_Session).key :=
  Secure_handshake_symmetry toyEnv ⟨true, true, freshSock []⟩
    ⟨true, true, freshSock (List.replicate 32 1 ++ [9])⟩
    (List.replicate 32 1) (List.replicate 32 1) (List.replicate 32 2) (List.replicate 32 2) [9]
    ⟨⟨List.replicate 32 1, [], []⟩, List.replicate 32 3⟩ ⟨⟨[], [], [9]⟩, List.replicate 32 3⟩
    (by decide) (by decide) rfl (by decide) rfl (by decide)

/-- The function `Secure_Connect` is all or nothing. It always returns (a
session or the null pointer); a failed allocation returns the null pointer with
no step run; a failed connect releases the session and runs no later step; a
failed key derivation or a short write of the public key closes the session;
and a session is returned only when all four steps succeeded. -/
theorem Secure_Connect_all_or_nothing (env : Secure_Env) (w : Handshake_World)
    (peer pub priv : Bytes) :
    (w.newSession = false → Secure_Connect env w peer pub priv = ⟨some none, []⟩) ∧
      (w.newSession = true → w.socketOk = false →
        Secure_Connect env w peer pub priv
          = ⟨some none, [Event.malloc Buf.session, Event.connectSocket false,
              Event.free Buf.session]⟩) ∧
      (w.newSession = true → w.socketOk = true →
        env.Secure_GenSharedKey peer priv = none →
        Secure_Connect env w peer pub priv
          = ⟨some none, [Event.malloc Buf.session, Event.connectSocket true,
              Event.malloc Buf.key, Event.genSharedKey peer priv,
              Event.netClose, Event.freeSession]⟩) ∧
      (w.newSession = true → w.socketOk = true →
        env.Secure_GenSharedKey peer priv ≠ none →
        (Secure_SendPublicKey w.sock pub).1 = true →
        Secure_Connect env w peer pub priv
          = ⟨some none, [Event.malloc Buf.session, Event.connectSocket true,
              Event.malloc Buf.key, Event.genSharedKey peer priv,
              Event.netSend pub crypto_box_PUBLICKEYBYTES,
              Event.netClose, Event.freeSession]⟩) ∧
      (∀ s, (Secure_Connect env w peer pub priv).ret = some (some s) →
        w.newSession = true ∧ w.socketOk = true ∧
        env.Secure_GenSharedKey peer priv = some s.key ∧
        (Secure_SendPublicKey w.sock pub).1 = false) := by
  refine ⟨?_, ?_, ?_, ?_, ?_⟩
  · intro h1
    simp [Secure_Connect, h1]
  · intro h1 h2
    simp [Secure_Connect, h1, h2]
  · intro h1 h2 h3
    simp [Secure_Connect, h1, h2, h3, Secure_Close]
  · intro h1 h2 h3 h4
    cases hk : env.Secure_GenSharedKey peer priv with
    | none => exact absurd hk h3
    | some key => simp [Secure_Connect, h1, h2, hk, h4, Secure_Close]
  · intro s hs
    obtain ⟨a, b, c, d, _⟩ := Secure_Connect_success env w peer pub priv s hs
    exact ⟨a, b, c, d⟩

/-- C7, the code on two failing handshakes of `Secure_Accept`. With a failed
session allocation the null pointer is not returned: `Secure_AcceptSocket` is
called on the null session and the call has no defined result. With a failed
`Secure_AcceptSocket` (its status is discarded) the later steps run on the
session, the public key is read, the key derived, and a session is returned. -/
theorem Secure_Accept_unchecked_steps :
    Secure_Accept toyEnv ⟨false, true, freshSock (List.replicate 32 1)⟩
        (List.replicate 32 2) (List.replicate 32 2)
      = ⟨none, [Event.malloc Buf.peer, Event.acceptSocket true]⟩ ∧
    Secure_Accept toyEnv ⟨true, false, freshSock (List.replicate 32 1)⟩
        (List.replicate 32 2) (List.replicate 32 2)
      = ⟨some (some ⟨freshSock [], List.replicate 32 3⟩),
          [Event.malloc Buf.session, Event.malloc Buf.peer, Event.acceptSocket false,
            Event.netRecv crypto_box_PUBLICKEYBYTES, Event.malloc Buf.key,
            Event.genSharedKey (List.replicate 32 1) (List.replicate 32 2),
            Event.free Buf.peer]⟩ ∧
    Secure_Accept toyEnv ⟨true, false, freshSock []⟩
        (List.replicate 32 2) (List.replicate 32 2)
      = ⟨some none,
          [Event.malloc Buf.session, Event.malloc Buf.peer, Event.acceptSocket false,
            Event.netRecv crypto_box_PUBLICKEYBYTES, Event.netClose, Event.freeSession]⟩ := by
  decide

/-! ## Release of temporary buffers -/

/-- On every path of `Secure_Send` each of the three temporary
buffers is allocated once and released once. -/
theorem Secure_Send_releases (env : Secure_Env) (session : Secure_Session)
    (gen data : Bytes) (b : Buf)
    (hb : b = Buf.cyphertext ∨ b = Buf.cyphersize ∨ b = Buf.nonce) :
    (Secure_Send env session gen data).log.count (Event.malloc b) = 1 ∧
      (Secure_Send env session gen data).log.count (Event.free b) = 1 := by
  unfold Secure_Send
  dsimp only
  repeat' split
  all_goals
    rcases hb with hb | hb | hb <;> subst hb <;> simp [sendFrees, List.count_cons]

/-- On every path of `Secure_Recv` each temporary buffer is
released as often as it is allocated, at most once; the plaintext buffer is
released exactly on the failing paths that allocated it, and when it is handed
to the caller it was allocated once and not released. -/
theorem Secure_Recv_releases (env : Secure_Env) (session : Secure_Session)
    (mallocData : Bool) :
    (∀ b, b = Buf.cyphertext ∨ b = Buf.cyphersize ∨ b = Buf.nonce →
      (Secure_Recv env session mallocData).log.count (Event.free b)
        = (Secure_Recv env session mallocData).log.count (Event.malloc b) ∧
      (Secure_Recv env session mallocData).log.count (Event.malloc b) ≤ 1) ∧
    ((∀ plain, (Secure_Recv env session mallocData).data ≠ some (some plain)) →
      (Secure_Recv env session mallocData).log.count (Event.free Buf.data)
        = (Secure_Recv env session mallocData).log.count (Event.malloc Buf.data)) ∧
    (∀ plain, (Secure_Recv env session mallocData).data = some (some plain) →
      (Secure_Recv env session mallocData).log.count (Event.malloc Buf.data) = 1 ∧
      (Secure_Recv env session mallocData).log.count (Event.free Buf.data) = 0) := by
  unfold Secure_Recv
  dsimp only
  generalize Net_Recv session.sock crypto_box_NONCEBYTES = r1
  generalize Net_Recv r1.2.2 (sizeof_Secure_MsgSize + crypto_box_MACBYTES) = r2
  split
  · refine ⟨fun b hb => ?_, ?_, ?_⟩
    · rcases hb with hb | hb | hb <;> subst hb <;> simp [List.count_cons]
    · intro _; simp [List.count_cons]
    · intro plain hp; simp at hp
  split
  · refine ⟨fun b hb => ?_, ?_, ?_⟩
    · rcases hb with hb | hb | hb <;> subst hb <;> simp [List.count_cons]
    · intro _; simp [List.count_cons]
    · intro plain hp; simp at hp
  split
  · refine ⟨fun b hb => ?_, ?_, ?_⟩
    · rcases hb with hb | hb | hb <;> subst hb <;> simp [List.count_cons]
    · intro _; simp [List.count_cons]
    · intro plain hp; simp at hp
  rename_i size _
  generalize Net_Recv r2.2.2 (ntohl size + crypto_box_MACBYTES) = r3
  repeat' split
  all_goals
    refine ⟨fun b hb => ?_, ?_, ?_⟩
    · rcases hb with hb | hb | hb <;> subst hb <;>
        (simp only [List.append_assoc, List.cons_append, List.nil_append, List.count_cons,
          List.count_nil, beq_iff_eq, reduceCtorEq, if_false, Event.malloc.injEq,
          Event.free.injEq]; simp)
    · intro hf
      first
        | exact absurd rfl (hf _)
        | (simp only [List.append_assoc, List.cons_append, List.nil_append, List.count_cons,
          List.count_nil, beq_iff_eq, reduceCtorEq, if_false, Event.malloc.injEq,
          Event.free.injEq])
    · intro plain hp
      first
        | (simp only [Option.some.injEq, reduceCtorEq] at hp; done)
        | (simp only [List.append_assoc, List.cons_append, List.nil_append, List.count_cons,
          List.count_nil, beq_iff_eq, reduceCtorEq, if_false, Event.malloc.injEq,
          Event.free.injEq]; simp)

/-- Every failing return of `Secure_Accept` leaves the buffer of
the peer public key allocated and never released. -/
theorem Secure_Accept_failure_keeps_peer (env : Secure_Env) (w : Handshake_World)
    (pub priv : Bytes) (h : (Secure_Accept env w pub priv).ret = some none) :
    (Secure_Accept env w pub priv).log.count (Event.malloc Buf.peer) = 1 ∧
      (Secure_Accept env w pub priv).log.count (Event.free Buf.peer) = 0 := by
  revert h
  unfold Secure_Accept
  dsimp only
  repeat' split
  all_goals
    intro h
    simp [List.count_cons, Secure_Close] at h ⊢

/-- C9, the code on a handshake whose public-key read is short: `Secure_Accept`
closes the session and returns the null pointer, and the buffer obtained from
`Secure_NewPubKey` for the peer key, allocated once, is never released; the
successful handshake does release it. -/
theorem Secure_Accept_leaks_peer :
    (Secure_Accept toyEnv ⟨true, true, freshSock [1, 2, 3]⟩
        (List.replicate 32 2) (List.replicate 32 2)).ret = some none ∧
      (Secure_Accept toyEnv ⟨true, true, freshSock [1, 2, 3]⟩
        (List.replicate 32 2) (List.replicate 32 2)).log
        = [Event.malloc Buf.session, Event.malloc Buf.peer, Event.acceptSocket true,
            Event.netRecv crypto_box_PUBLICKEYBYTES, Event.netClose, Event.freeSession] ∧
      (Secure_Accept toyEnv ⟨true, true, freshSock [1, 2, 3]⟩
        (List.replicate 32 2) (List.replicate 32 2)).log.count (Event.malloc Buf.peer) = 1 ∧
      (Secure_Accept toyEnv ⟨true, true, freshSock [1, 2, 3]⟩
        (List.replicate 32 2) (List.replicate 32 2)).log.count (Event.free Buf.peer) = 0 ∧
      (Secure_Accept toyEnv ⟨true, true, freshSock (List.replicate 32 1)⟩
        (List.replicate 32 2) (List.replicate 32 2)).log.count (Event.free Buf.peer) = 1 := by
  decide

end Secure
